import Mathlib

/-!
Verification of the reservoir forecasting-and-control decision engine of the
agentic_rag repository.  The repository ships the engine behind tool guides,
prompts and a React frontend; the engine itself (ControlPolicy, ForecastEngine,
TrendAnalyzer, DecisionLogger) is modelled here from the specification, while
the frontend AutomationDashboard component and the apiRequest client helper are
embedded directly from the TypeScript sources.
-/

/- ### Numeric helpers -/

/-- Clamp a rational to the closed interval from 0 to 1. -/
def clamp01 (q : ℚ) : ℚ := max 0 (min 1 q)

/- ### ControlPolicy: per-pump hysteresis state machine -/

/-- Modelled from the spec: the two states of a pump, also used as the action
carried by a pump command. -/
inductive PumpState
  | On
  | Off
deriving DecidableEq, Repr

/-- Modelled from the spec: per-pump configuration of the hysteresis state
machine, with low and high thresholds and the cooldown (dwell) time in
seconds between consecutive toggles.  The source file
services/autonomous_agent.py is absent from the sources; the prompt reference
guide documents the thresholds low=40, high=80 for the first reservoir. -/
structure PumpConfig where
  low_threshold : ℚ
  high_threshold : ℚ
  cooldown_seconds : ℤ
deriving DecidableEq, Repr

/-- Modelled from the spec: the per-pump automation state owned by the
DecisionLoop, holding the current pump state and the time of the last
toggle (none when the pump has never been toggled). -/
structure PumpAutomation where
  state : PumpState
  lastToggle : Option ℤ
deriving DecidableEq, Repr

/-- Modelled from the spec: the three possible evaluation outcomes, a pump
command carrying the action and issue time, a no-op, or blocked when a needed
change is prevented by the cooldown. -/
inductive EvalResult
  | command (action : PumpState) (issued_at : ℤ)
  | noop
  | blocked
deriving DecidableEq, Repr

/-- Modelled from the spec: whether the cooldown has elapsed at time now since
the last toggle; a pump that was never toggled has a trivially elapsed
cooldown. -/
def cooldownElapsed (cfg : PumpConfig) (pa : PumpAutomation) (now : ℤ) : Bool :=
  match pa.lastToggle with
  | none => true
  | some t => decide (cfg.cooldown_seconds ≤ now - t)

/-- Modelled from the spec: one evaluation of the hysteresis policy.
OFF turns ON when the level is strictly below the low threshold and the
cooldown has elapsed; ON turns OFF when the level is strictly above the high
threshold and the cooldown has elapsed; a needed change inside the cooldown
yields blocked; otherwise no-op.  No transition happens while the level lies
in the hysteresis band. -/
def ControlPolicy.evaluate (cfg : PumpConfig) (pa : PumpAutomation) (level : ℚ) (now : ℤ) :
    PumpAutomation × EvalResult :=
  match pa.state with
  | PumpState.Off =>
      if level < cfg.low_threshold then
        if cooldownElapsed cfg pa now then
          (⟨PumpState.On, some now⟩, EvalResult.command PumpState.On now)
        else (pa, EvalResult.blocked)
      else (pa, EvalResult.noop)
  | PumpState.On =>
      if cfg.high_threshold < level then
        if cooldownElapsed cfg pa now then
          (⟨PumpState.Off, some now⟩, EvalResult.command PumpState.Off now)
        else (pa, EvalResult.blocked)
      else (pa, EvalResult.noop)

/-- Modelled from the spec: feed a sequence of (level, evaluation time)
readings through the policy, threading the per-pump automation state and
collecting one evaluation result per reading. -/
def runPolicy (cfg : PumpConfig) (pa : PumpAutomation) :
    List (ℚ × ℤ) → PumpAutomation × List EvalResult
  | [] => (pa, [])
  | (level, t) :: rest =>
      let step := ControlPolicy.evaluate cfg pa level t
      let tail := runPolicy cfg step.1 rest
      (tail.1, step.2 :: tail.2)

/-- The actions of the pump commands among a list of evaluation results. -/
def commandsOf (results : List EvalResult) : List PumpState :=
  results.filterMap fun r =>
    match r with
    | EvalResult.command a _ => some a
    | EvalResult.noop => none
    | EvalResult.blocked => none

/-- The issue times of the pump commands among a list of evaluation results. -/
def commandTimes (results : List EvalResult) : List ℤ :=
  results.filterMap fun r =>
    match r with
    | EvalResult.command _ t => some t
    | EvalResult.noop => none
    | EvalResult.blocked => none

/-- Modelled from the spec: a transition is needed when the pump is OFF with
the level below the low threshold, or ON with the level above the high
threshold. -/
def transitionNeeded (cfg : PumpConfig) (pa : PumpAutomation) (level : ℚ) : Prop :=
  (pa.state = PumpState.Off ∧ level < cfg.low_threshold) ∨
  (pa.state = PumpState.On ∧ cfg.high_threshold < level)

/-- Two instants are cooldown-compatible when the second is at least the
cooldown after the first. -/
abbrev cooldownRel (c : ℤ) : ℤ → ℤ → Prop := fun a b => a + c ≤ b

/-- The configuration of the documented scenario: low threshold 40, high
threshold 80, together with an arbitrary cooldown. -/
def cfg40_80 (c : ℤ) : PumpConfig := ⟨40, 80, c⟩

/-- A pump starting OFF that has never been toggled. -/
def pumpInitiallyOff : PumpAutomation := ⟨PumpState.Off, none⟩

/- ### ForecastEngine -/

/-- Modelled from the spec: the ambient environment a forecast call could in
principle observe (a wall clock and a random seed).  The specified engine is
deterministic, so the prediction below never reads this argument. -/
structure Env where
  clock : ℤ
  rngSeed : ℕ
deriving DecidableEq, Repr

/-- Modelled from the spec: the error raised when forecast input has fewer
than two distinct timestamps. -/
inductive ForecastError
  | InsufficientData
deriving DecidableEq, Repr

/-- Modelled from the spec: the trend label of a forecast. -/
inductive Trend
  | rising
  | falling
  | stable
deriving DecidableEq, Repr

/-- Modelled from the spec: an immutable forecast result. -/
structure ForecastResult where
  as_of : ℤ
  horizon_minutes : ℚ
  predicted_level : ℚ
  confidence : ℚ
  trend : Trend
deriving DecidableEq, Repr

/-- Arithmetic mean of a list of rationals (0 on the empty list). -/
def qmean (l : List ℚ) : ℚ := l.sum / l.length

/-- The distinct timestamps of a reading list, in order of first occurrence. -/
def timestampsOf (rs : List (ℤ × ℚ)) : List ℤ := (rs.map Prod.fst).dedup

/-- Number of distinct timestamps among the readings. -/
def distinctTimestamps (rs : List (ℤ × ℚ)) : ℕ := (timestampsOf rs).length

/-- The levels recorded at a given timestamp. -/
def levelsAt (rs : List (ℤ × ℚ)) (t : ℤ) : List ℚ :=
  (rs.filter fun p => p.1 == t).map Prod.snd

/-- Modelled from the spec: readings with duplicate timestamps collapse by
averaging their levels, one collapsed point per distinct timestamp. -/
def collapse (rs : List (ℤ × ℚ)) : List (ℚ × ℚ) :=
  (timestampsOf rs).map fun (t : ℤ) => ((t : ℚ), qmean (levelsAt rs t))

/-- Least-squares slope of a point list (0 when the x spread is zero, since
rational division by zero yields zero). -/
def regSlope (ps : List (ℚ × ℚ)) : ℚ :=
  let xbar := qmean (ps.map Prod.fst)
  let ybar := qmean (ps.map Prod.snd)
  let sxx := (ps.map fun p => (p.1 - xbar) ^ 2).sum
  let sxy := (ps.map fun p => (p.1 - xbar) * (p.2 - ybar)).sum
  sxy / sxx

/-- Least-squares intercept of a point list. -/
def regIntercept (ps : List (ℚ × ℚ)) : ℚ :=
  qmean (ps.map Prod.snd) - regSlope ps * qmean (ps.map Prod.fst)

/-- Coefficient of determination of the least-squares fit; a constant level
series is fitted exactly, giving 1. -/
def rSquared (ps : List (ℚ × ℚ)) : ℚ :=
  let ybar := qmean (ps.map Prod.snd)
  let syy := (ps.map fun p => (p.2 - ybar) ^ 2).sum
  if syy = 0 then 1
  else
    let ssres := (ps.map fun p => (p.2 - (regIntercept ps + regSlope ps * p.1)) ^ 2).sum
    1 - ssres / syy

/-- Modelled from the spec: the short-window moving-average slope, the
secondary estimator.  It is the average slope across the window of the last
five collapsed points (endpoint difference over elapsed time). -/
def maSlope (ps : List (ℚ × ℚ)) : ℚ :=
  let w := ps.drop (ps.length - 5)
  match w.head?, w.getLast? with
  | some a, some b => if b.1 = a.1 then 0 else (b.2 - a.2) / (b.1 - a.1)
  | some _, none => 0
  | none, some _ => 0
  | none, none => 0

/-- Sample-density factor of the blend weight, increasing in the sample
count and always inside the unit interval. -/
def densityFactor (n : ℕ) : ℚ := (n : ℚ) / ((n : ℚ) + 1)

/-- Horizon factor of the blend weight, non-increasing in the ratio of the
horizon to the lookback span and always inside the unit interval. -/
def horizonFactor (r : ℚ) : ℚ := 1 / (1 + max 0 r)

/-- Modelled from the spec: the documented blend weight given to the
regression extrapolation.  It is the product of the clamped coefficient of
determination, the sample-density factor and the horizon factor, hence
monotone in the coefficient of determination and non-increasing in the
horizon-to-lookback ratio. -/
def blendWeight (rsq : ℚ) (n : ℕ) (r : ℚ) : ℚ :=
  clamp01 rsq * densityFactor n * horizonFactor r

/-- Modelled from the spec: the forecast confidence, a clamped function of
the coefficient of determination and the sample count that degrades once the
horizon exceeds the lookback span. -/
def confidenceOf (rsq : ℚ) (n : ℕ) (r : ℚ) : ℚ :=
  clamp01 (clamp01 rsq * densityFactor n * horizonFactor (r - 1))

/-- Dead-band threshold on the blended slope below which the trend is
labelled stable. -/
def deadband : ℚ := 1 / 100

/-- Trend label of a blended slope against the dead band. -/
def trendOf (slope : ℚ) : Trend :=
  if deadband < slope then Trend.rising
  else if slope < -deadband then Trend.falling
  else Trend.stable

/-- A horizon in minutes converted to seconds. -/
def horizonSeconds (m : ℚ) : ℚ := m * 60

/-- Modelled from the spec: the hybrid forecast.  The engine requires at
least two distinct timestamps and otherwise fails with InsufficientData; on
success it fits a least-squares line over the collapsed readings, computes
the short-window moving-average slope, and blends the two extrapolations at
the target time with the documented weight.  The environment argument is
never read: the engine is deterministic. -/
def ForecastEngine.predict (readings : List (ℤ × ℚ)) (horizon_minutes : ℚ) (as_of : ℤ)
    (env : Env) : Except ForecastError ForecastResult :=
  if distinctTimestamps readings < 2 then Except.error ForecastError.InsufficientData
  else
    let ps := collapse readings
    let n := ps.length
    let slope := regSlope ps
    let intercept := regIntercept ps
    let rsq := rSquared ps
    let ma := maSlope ps
    let xTarget := (as_of : ℚ) + horizonSeconds horizon_minutes
    let span :=
      match ps.head?, ps.getLast? with
      | some a, some b => b.1 - a.1
      | some _, none => 0
      | none, some _ => 0
      | none, none => 0
    let hratio := if span = 0 then 0 else horizonSeconds horizon_minutes / span
    let w := blendWeight rsq n hratio
    let lastX := ((ps.getLast?).map Prod.fst).getD 0
    let lastLevel := ((ps.getLast?).map Prod.snd).getD 0
    let regPred := intercept + slope * xTarget
    let maPred := lastLevel + ma * (xTarget - lastX)
    let blended := w * regPred + (1 - w) * maPred
    let blendedSlope := w * slope + (1 - w) * ma
    Except.ok
      { as_of := as_of
        horizon_minutes := horizon_minutes
        predicted_level := blended
        confidence := confidenceOf rsq n hratio
        trend := trendOf blendedSlope }

/-- Modelled from the spec: the per-tick fan-out of the DecisionLoop over the
configured reservoirs.  A reservoir whose forecast fails with
InsufficientData yields no forecast for that tick and the remaining
reservoirs are still processed; the loop is never terminated. -/
def reservoirTick (inputs : List (ℕ × List (ℤ × ℚ))) (hm : ℚ) (asOf : ℤ) (env : Env) :
    List (ℕ × Option ForecastResult) :=
  inputs.map fun p =>
    match ForecastEngine.predict p.2 hm asOf env with
    | Except.ok r => (p.1, some r)
    | Except.error _ => (p.1, none)

/- ### TrendAnalyzer -/

/-- Modelled from the spec: an alert prediction carrying the threshold, the
time until the threshold is reached in hours when it will be reached, and the
reachability flag. -/
structure AlertPrediction where
  threshold : ℚ
  hours_until : Option ℚ
  will_reach : Bool
deriving DecidableEq, Repr

/-- Rational stand-in for the floating-point square root used by the
quadratic branch (exact when numerator and denominator are perfect squares,
an approximation otherwise, like the original floating-point code). -/
def ratApproxSqrt (q : ℚ) : ℚ := (Int.sqrt q.num : ℚ) / (Nat.sqrt q.den : ℚ)

/-- Modelled from the spec: the alert ETA.  It solves
level + rate * t + acceleration * t ^ 2 / 2 = threshold for the smallest
non-negative t within the horizon; with zero acceleration the quadratic model
degenerates to the linear solution, and when the trajectory never reaches the
threshold within the horizon the prediction is negative with no ETA. -/
def TrendAnalyzer.predict_alert (level rate accel threshold maxHorizon : ℚ) :
    AlertPrediction :=
  if accel = 0 then
    if rate = 0 then ⟨threshold, none, false⟩
    else
      let t := (threshold - level) / rate
      if 0 ≤ t ∧ t ≤ maxHorizon then ⟨threshold, some t, true⟩
      else ⟨threshold, none, false⟩
  else
    let disc := rate ^ 2 - 2 * accel * (level - threshold)
    if disc < 0 then ⟨threshold, none, false⟩
    else
      let s := ratApproxSqrt disc
      let t1 := (-rate - s) / accel
      let t2 := (-rate + s) / accel
      let cands :=
        (if 0 ≤ t1 ∧ t1 ≤ maxHorizon then [t1] else []) ++
          (if 0 ≤ t2 ∧ t2 ≤ maxHorizon then [t2] else [])
      match cands with
      | [] => ⟨threshold, none, false⟩
      | c :: cs => ⟨threshold, some ((c :: cs).foldl min c), true⟩

/- ### DecisionLogger -/

/-- Modelled from the spec: the outcome recorded with every decision. -/
inductive Outcome
  | applied
  | failed
  | skipped
deriving DecidableEq, Repr

/-- Modelled from the spec: a decision audit record. -/
structure Decision where
  id : ℕ
  reservoir_id : ℕ
  timestamp : ℤ
  chosen_action : String
  rationale : String
  outcome : Outcome
deriving DecidableEq, Repr

/-- Modelled from the spec: the filters accepted by the logger query. -/
structure QueryFilter where
  reservoir_id : Option ℕ
  since : Option ℤ
  limit : ℕ
deriving DecidableEq, Repr

/-- Modelled from the spec: the read-only query over the log, filtered and
returned most recent first up to the limit. -/
def DecisionLogger.query (log : List Decision) (f : QueryFilter) : List Decision :=
  ((log.filter fun d =>
      (match f.reservoir_id with
       | none => true
       | some r => d.reservoir_id == r) &&
      (match f.since with
       | none => true
       | some s => decide (s ≤ d.timestamp))).reverse).take f.limit

/-- Modelled from the spec: the complete core interface of the logger, an
append and a read-only query; no update or delete operation exists. -/
inductive LoggerOp
  | append (d : Decision)
  | query (f : QueryFilter)

/-- Effect of one logger operation on the stored log: append adds the
decision at the end, query leaves the log untouched. -/
def DecisionLogger.applyOp (log : List Decision) : LoggerOp → List Decision
  | LoggerOp.append d => log ++ [d]
  | LoggerOp.query _ => log

/-- Effect of a sequence of logger operations on the stored log. -/
def DecisionLogger.applyOps (log : List Decision) (ops : List LoggerOp) : List Decision :=
  ops.foldl DecisionLogger.applyOp log

/- ### AutomationDashboard component (frontend/src/components, embedded) -/

/-- The local React state of the AutomationDashboard component: the two
useState booleans automationActive and autonomousMonitoring. -/
structure DashboardState where
  automationActive : Bool
  autonomousMonitoring : Bool
deriving DecidableEq, Repr

/-- The two click events of the component: the pump-automation toggle and the
autonomous-agent toggle. -/
inductive DashEvent
  | toggleAutomation
  | toggleAutonomous
deriving DecidableEq, Repr

/-- An HTTP request a component could issue (endpoint and method). -/
structure ApiCall where
  endpoint : String
  method : String
deriving DecidableEq, Repr

/-- Embedding of the two onClick handlers of AutomationDashboard: each one
only calls the matching useState setter with the negated flag; neither
handler issues any request, so the emitted request list is empty. -/
def dashClick (s : DashboardState) : DashEvent → DashboardState × List ApiCall
  | DashEvent.toggleAutomation =>
      ({ s with automationActive := !s.automationActive }, [])
  | DashEvent.toggleAutonomous =>
      ({ s with autonomousMonitoring := !s.autonomousMonitoring }, [])

/-- Backend state evolution under a list of issued requests: each request is
folded into the backend by its transition function. -/
def backendAfter {β : Type} (b : β) (calls : List ApiCall) (f : β → ApiCall → β) : β :=
  calls.foldl f b

/-- Status label of the pump-automation card. -/
def activeLabel : String := "활성화"

/-- Status label of the pump-automation card when inactive. -/
def inactiveLabel : String := "비활성화"

/-- Status label of the autonomous-agent card. -/
def monitoringLabel : String := "모니터링 중"

/-- Status label of the autonomous-agent card when idle. -/
def idleLabel : String := "대기 중"

/-- Displayed status of the pump-automation card, a pure function of the
local automationActive flag. -/
def automationStatusText (s : DashboardState) : String :=
  if s.automationActive then activeLabel else inactiveLabel

/-- Displayed status of the autonomous-agent card, a pure function of the
local autonomousMonitoring flag. -/
def monitoringStatusText (s : DashboardState) : String :=
  if s.autonomousMonitoring then monitoringLabel else idleLabel

/- ### apiRequest client helper (embedded from the changelog sources) -/

/-- The localStorage key of the JWT access token. -/
def accessTokenKey : String := "access_token"

/-- The localStorage key of the stored user record. -/
def userKey : String := "user"

/-- The login route the client redirects to on authentication failure. -/
def loginPath : String := "/login"

/-- The error message thrown when authentication has expired. -/
def authExpiredMessage : String := "인증이 만료되었습니다. 다시 로그인해주세요."

/-- The content-type header name. -/
def contentTypeKey : String := "Content-Type"

/-- The JSON content type. -/
def contentTypeJson : String := "application/json"

/-- The authorization header name. -/
def authHeaderKey : String := "Authorization"

/-- The bearer-token prefix of the authorization header value. -/
def bearerTag : String := "Bearer "

/-- Browser-side client state: the localStorage key-value pairs and the
current window location. -/
structure ClientState where
  storage : List (String × String)
  location : String
deriving DecidableEq, Repr

/-- An HTTP response, abstracted to its status code. -/
structure HttpResponse where
  status : ℕ
deriving DecidableEq, Repr

/-- localStorage.getItem: the value stored under a key, if any. -/
def lsGetItem (k : String) (l : List (String × String)) : Option String :=
  (l.find? fun p => p.1 == k).map Prod.snd

/-- localStorage.removeItem: drop every pair stored under the key. -/
def lsRemoveItem (k : String) (l : List (String × String)) : List (String × String) :=
  l.filter fun p => p.1 != k

/-- Embedding of the default headers built by apiRequest: the JSON content
type, plus the bearer authorization header when authentication is required
and an access token is stored. -/
def apiRequestHeaders (requireAuth : Bool) (storage : List (String × String)) :
    List (String × String) :=
  [(contentTypeKey, contentTypeJson)] ++
    (if requireAuth then
      match lsGetItem accessTokenKey storage with
      | some tok => [(authHeaderKey, bearerTag ++ tok)]
      | none => []
    else [])

/-- Embedding of the response handling of apiRequest: on a 401 status with
authentication required, the access token and user records are removed from
localStorage, the window is redirected to the login route, and an error is
thrown; every other response is returned unchanged to the caller. -/
def apiRequest (requireAuth : Bool) (st : ClientState) (resp : HttpResponse) :
    ClientState × Except String HttpResponse :=
  if resp.status = 401 ∧ requireAuth = true then
    ({ storage := lsRemoveItem userKey (lsRemoveItem accessTokenKey st.storage)
       location := loginPath },
     Except.error authExpiredMessage)
  else (st, Except.ok resp)

/- ### Helper lemmas -/

theorem clamp01_nonneg (q : ℚ) : 0 ≤ clamp01 q := le_max_left 0 _

theorem clamp01_le_one (q : ℚ) : clamp01 q ≤ 1 :=
  max_le zero_le_one (min_le_left 1 q)

theorem clamp01_mono {a b : ℚ} (h : a ≤ b) : clamp01 a ≤ clamp01 b :=
  max_le_max le_rfl (min_le_min le_rfl h)

theorem densityFactor_nonneg (n : ℕ) : 0 ≤ densityFactor n := by
  unfold densityFactor
  positivity

theorem horizonFactor_pos (r : ℚ) : 0 < horizonFactor r := by
  unfold horizonFactor
  have h : (0 : ℚ) ≤ max 0 r := le_max_left 0 r
  have h1 : (0 : ℚ) < 1 + max 0 r := by linarith
  exact one_div_pos.mpr h1

theorem horizonFactor_nonneg (r : ℚ) : 0 ≤ horizonFactor r :=
  le_of_lt (horizonFactor_pos r)

theorem horizonFactor_antitone {a b : ℚ} (h : a ≤ b) :
    horizonFactor b ≤ horizonFactor a := by
  unfold horizonFactor
  have ha : (0 : ℚ) ≤ max 0 a := le_max_left 0 a
  have h1 : (0 : ℚ) < 1 + max 0 a := by linarith
  have h2 : 1 + max 0 a ≤ 1 + max 0 b := by
    have := max_le_max (le_refl (0 : ℚ)) h
    linarith
  exact one_div_le_one_div_of_le h1 h2

/- ### Claim theorems: ForecastEngine -/

/-- C3: ForecastEngine.predict fails with InsufficientData exactly when the
readings contain fewer than two distinct timestamps, and on such a failure
the tick still processes every other reservoir (one outcome per reservoir,
the failing one yielding no forecast) instead of terminating the loop. -/
theorem forecast_insufficient_data_iff :
    (∀ (rs : List (ℤ × ℚ)) (hm : ℚ) (asOf : ℤ) (env : Env),
      ForecastEngine.predict rs hm asOf env = Except.error ForecastError.InsufficientData ↔
        distinctTimestamps rs < 2) ∧
    (∀ (inputs : List (ℕ × List (ℤ × ℚ))) (hm : ℚ) (asOf : ℤ) (env : Env),
      (reservoirTick inputs hm asOf env).length = inputs.length ∧
      ∀ p ∈ inputs, distinctTimestamps p.2 < 2 →
        (p.1, (none : Option ForecastResult)) ∈ reservoirTick inputs hm asOf env) := by
  have key : ∀ (rs : List (ℤ × ℚ)) (hm : ℚ) (asOf : ℤ) (env : Env),
      ForecastEngine.predict rs hm asOf env = Except.error ForecastError.InsufficientData ↔
        distinctTimestamps rs < 2 := by
    intro rs hm asOf env
    unfold ForecastEngine.predict
    split_ifs with h
    · simp [h]
    · simp [h]
  refine ⟨key, ?_⟩
  intro inputs hm asOf env
  constructor
  · unfold reservoirTick
    exact List.length_map _ _
  · intro p hp hlt
    have herr := (key p.2 hm asOf env).mpr hlt
    unfold reservoirTick
    refine List.mem_map.mpr ⟨p, hp, ?_⟩
    rw [herr]

/-- Witness for C3 at a concrete input with one distinct timestamp. -/
theorem forecast_insufficient_data_iff_witness :
    ForecastEngine.predict [((0 : ℤ), (70 : ℚ))] 30 0 ⟨0, 0⟩ =
      Except.error ForecastError.InsufficientData :=
  (forecast_insufficient_data_iff.1 [((0 : ℤ), (70 : ℚ))] 30 0 ⟨0, 0⟩).mpr (by decide)

/-- C4: on any input with at least two distinct timestamps the forecast
succeeds and its confidence lies in the closed unit interval; in this exact
rational model every predicted level is a well-defined (finite) rational. -/
theorem forecast_valid_inputs (rs : List (ℤ × ℚ)) (hm : ℚ) (asOf : ℤ) (env : Env)
    (h : 2 ≤ distinctTimestamps rs) :
    ∃ r : ForecastResult, ForecastEngine.predict rs hm asOf env = Except.ok r ∧
      0 ≤ r.confidence ∧ r.confidence ≤ 1 := by
  unfold ForecastEngine.predict
  rw [if_neg (by omega)]
  exact ⟨_, rfl, clamp01_nonneg _, clamp01_le_one _⟩

/-- Witness for C4 at two readings one minute apart. -/
theorem forecast_valid_inputs_witness :
    ∃ r : ForecastResult,
      ForecastEngine.predict [((0 : ℤ), (70 : ℚ)), ((60 : ℤ), (71 : ℚ))] 30 60 ⟨0, 0⟩ =
        Except.ok r ∧ 0 ≤ r.confidence ∧ r.confidence ≤ 1 :=
  forecast_valid_inputs [((0 : ℤ), (70 : ℚ)), ((60 : ℤ), (71 : ℚ))] 30 60 ⟨0, 0⟩ (by decide)

/-- C5: the forecast is deterministic, two calls with identical readings,
horizon and as_of agree even under different ambient environments (no hidden
clock read or randomness influences the result). -/
theorem forecast_deterministic (rs : List (ℤ × ℚ)) (hm : ℚ) (asOf : ℤ)
    (env1 env2 : Env) :
    ForecastEngine.predict rs hm asOf env1 = ForecastEngine.predict rs hm asOf env2 := rfl

/-- C7: the blend weight given to the regression extrapolation is monotone
non-decreasing in the coefficient of determination and non-increasing in the
horizon-to-lookback ratio, the sample count and the other argument held
fixed. -/
theorem blend_weight_monotone :
    (∀ (n : ℕ) (r rsqA rsqB : ℚ), rsqA ≤ rsqB →
      blendWeight rsqA n r ≤ blendWeight rsqB n r) ∧
    (∀ (n : ℕ) (rsq rA rB : ℚ), rA ≤ rB →
      blendWeight rsq n rB ≤ blendWeight rsq n rA) := by
  constructor
  · intro n r a b hab
    unfold blendWeight
    exact mul_le_mul_of_nonneg_right
      (mul_le_mul_of_nonneg_right (clamp01_mono hab) (densityFactor_nonneg n))
      (horizonFactor_nonneg r)
  · intro n rsq rA rB h
    unfold blendWeight
    exact mul_le_mul_of_nonneg_left (horizonFactor_antitone h)
      (mul_nonneg (clamp01_nonneg _) (densityFactor_nonneg n))

/-- Witness for C7 at concrete weights. -/
theorem blend_weight_monotone_witness :
    blendWeight (1/2) 4 1 ≤ blendWeight (3/4) 4 1 ∧
    blendWeight (1/2) 4 2 ≤ blendWeight (1/2) 4 1 :=
  ⟨blend_weight_monotone.1 4 1 (1/2) (3/4) (by norm_num),
   blend_weight_monotone.2 4 (1/2) 1 2 (by norm_num)⟩

/- ### Claim theorems: DecisionLogger -/

/-- C8: the logger core is append-only; after any sequence of core
operations the previous log is an unchanged prefix of the new log, so no
appended decision is ever mutated or removed. -/
theorem logger_append_only (log : List Decision) (ops : List LoggerOp) :
    ∃ tail, DecisionLogger.applyOps log ops = log ++ tail := by
  induction ops generalizing log with
  | nil => exact ⟨[], (List.append_nil log).symm⟩
  | cons op rest ih =>
      cases op with
      | append d =>
          obtain ⟨t, ht⟩ := ih (log ++ [d])
          refine ⟨[d] ++ t, ?_⟩
          have hstep : DecisionLogger.applyOps log (LoggerOp.append d :: rest) =
              DecisionLogger.applyOps (log ++ [d]) rest := rfl
          rw [hstep, ht, List.append_assoc]
      | query f =>
          obtain ⟨t, ht⟩ := ih log
          exact ⟨t, ht⟩

/- ### Claim theorems: AutomationDashboard -/

/-- C9: each dashboard toggle only flips its own local boolean, emits no
network request (so any backend state is left untouched), and the displayed
status labels are pure functions of the local flags. -/
theorem dashboard_toggles_are_local (s : DashboardState) (e : DashEvent)
    {β : Type} (b : β) (f : β → ApiCall → β) :
    (dashClick s e).2 = [] ∧
    backendAfter b (dashClick s e).2 f = b ∧
    ((dashClick s DashEvent.toggleAutomation).1.automationActive = !s.automationActive ∧
      (dashClick s DashEvent.toggleAutomation).1.autonomousMonitoring =
        s.autonomousMonitoring) ∧
    ((dashClick s DashEvent.toggleAutonomous).1.autonomousMonitoring =
        !s.autonomousMonitoring ∧
      (dashClick s DashEvent.toggleAutonomous).1.automationActive = s.automationActive) ∧
    automationStatusText (dashClick s DashEvent.toggleAutomation).1 =
      (if s.automationActive then inactiveLabel else activeLabel) ∧
    monitoringStatusText (dashClick s DashEvent.toggleAutonomous).1 =
      (if s.autonomousMonitoring then idleLabel else monitoringLabel) := by
  have h1 : automationStatusText (dashClick s DashEvent.toggleAutomation).1 =
      (if s.automationActive then inactiveLabel else activeLabel) := by
    cases h : s.automationActive <;> simp [automationStatusText, dashClick, h]
  have h2 : monitoringStatusText (dashClick s DashEvent.toggleAutonomous).1 =
      (if s.autonomousMonitoring then idleLabel else monitoringLabel) := by
    cases h : s.autonomousMonitoring <;> simp [monitoringStatusText, dashClick, h]
  cases e <;> exact ⟨rfl, rfl, ⟨rfl, rfl⟩, ⟨rfl, rfl⟩, h1, h2⟩

/- ### Claim theorems: apiRequest -/

theorem lsGetItem_remove_self (k : String) (l : List (String × String)) :
    lsGetItem k (lsRemoveItem k l) = none := by
  induction l with
  | nil => rfl
  | cons p rest ih =>
      unfold lsRemoveItem lsGetItem at ih ⊢
      rw [List.filter_cons]
      by_cases h : p.1 = k
      · simp only [h, bne_self_eq_false, if_false]
        exact ih
      · have hb : (p.1 != k) = true := by simp [bne_iff_ne, h]
        rw [hb, if_pos rfl, List.find?_cons]
        have hbeq : (p.1 == k) = false := by simp [h]
        rw [hbeq]
        exact ih

theorem lsGetItem_remove_ne (k k' : String) (l : List (String × String)) (h : k ≠ k') :
    lsGetItem k (lsRemoveItem k' l) = lsGetItem k l := by
  induction l with
  | nil => rfl
  | cons p rest ih =>
      unfold lsRemoveItem lsGetItem at ih ⊢
      rw [List.filter_cons]
      by_cases hp : p.1 = k'
      · have hb : (p.1 != k') = false := by simp [hp]
        rw [hb, if_neg Bool.false_ne_true, List.find?_cons]
        have hbeq : (p.1 == k) = false := by
          simp only [beq_eq_false_iff_ne, ne_eq, hp]
          exact fun hk => h hk.symm
        rw [hbeq]
        exact ih
      · have hb : (p.1 != k') = true := by simp [bne_iff_ne, hp]
        rw [hb, if_pos rfl, List.find?_cons, List.find?_cons]
        by_cases hk : p.1 = k
        · have hbeq : (p.1 == k) = true := by simp [hk]
          rw [hbeq]
        · have hbeq : (p.1 == k) = false := by simp [hk]
          rw [hbeq]
          exact ih

/-- C10: a 401 response on an authenticated apiRequest clears the stored
access token and user record, redirects to the login route and throws,
while every other response is returned unchanged to the caller. -/
theorem api_request_unauthorized (requireAuth : Bool) (st : ClientState)
    (resp : HttpResponse) :
    (resp.status = 401 → requireAuth = true →
      (apiRequest requireAuth st resp).2 = Except.error authExpiredMessage ∧
      lsGetItem accessTokenKey (apiRequest requireAuth st resp).1.storage = none ∧
      lsGetItem userKey (apiRequest requireAuth st resp).1.storage = none ∧
      (apiRequest requireAuth st resp).1.location = loginPath) ∧
    (¬(resp.status = 401 ∧ requireAuth = true) →
      apiRequest requireAuth st resp = (st, Except.ok resp)) := by
  constructor
  · intro h1 h2
    unfold apiRequest
    rw [if_pos ⟨h1, h2⟩]
    refine ⟨rfl, ?_, ?_, rfl⟩
    · rw [lsGetItem_remove_ne accessTokenKey userKey _ (by decide)]
      exact lsGetItem_remove_self _ _
    · exact lsGetItem_remove_self _ _
  · intro h
    unfold apiRequest
    rw [if_neg h]

/-- Witness for C10: the 401 branch and a 200 pass-through at a concrete
client state. -/
theorem api_request_unauthorized_witness :
    (apiRequest true ⟨[(accessTokenKey, bearerTag)], loginPath⟩ ⟨401⟩).2 =
      Except.error authExpiredMessage ∧
    apiRequest true ⟨[(accessTokenKey, bearerTag)], loginPath⟩ ⟨200⟩ =
      (⟨[(accessTokenKey, bearerTag)], loginPath⟩, Except.ok ⟨200⟩) :=
  ⟨((api_request_unauthorized true ⟨[(accessTokenKey, bearerTag)], loginPath⟩ ⟨401⟩).1
      rfl rfl).1,
   (api_request_unauthorized true ⟨[(accessTokenKey, bearerTag)], loginPath⟩ ⟨200⟩).2
      (by simp)⟩

/- ### Claim theorems: TrendAnalyzer alert ETA -/

/-- C6: with level 75.3, rate 1.5, zero acceleration, threshold 100 and a
horizon of at least 16.47 hours, the alert prediction is reachable with
hours_until exactly (100 - 75.3) / 1.5 = 247/15, the quadratic model
degenerating to the linear solution. -/
theorem alert_eta_linear_case (H : ℚ) (h : (1647 : ℚ) / 100 ≤ H) :
    TrendAnalyzer.predict_alert (753/10) (3/2) 0 100 H =
      { threshold := 100, hours_until := some (247/15), will_reach := true } ∧
    (247 : ℚ) / 15 = (100 - 753/10) / (3/2) := by
  have ht : ((100 : ℚ) - 753/10) / (3/2) = 247/15 := by norm_num
  refine ⟨?_, ht.symm⟩
  unfold TrendAnalyzer.predict_alert
  rw [if_pos rfl, if_neg (by norm_num : ¬(3/2 : ℚ) = 0)]
  rw [ht]
  rw [if_pos ⟨by norm_num, by linarith⟩]

/-- Witness for C6 at the concrete horizon of 17 hours. -/
theorem alert_eta_linear_case_witness :
    TrendAnalyzer.predict_alert (753/10) (3/2) 0 100 17 =
      { threshold := 100, hours_until := some (247/15), will_reach := true } :=
  (alert_eta_linear_case 17 (by norm_num)).1

/- ### Claim theorems: ControlPolicy cooldown -/

theorem evaluate_split (cfg : PumpConfig) (pa : PumpAutomation) (level : ℚ) (now : ℤ) :
    ((ControlPolicy.evaluate cfg pa level now).2 = EvalResult.command
        (ControlPolicy.evaluate cfg pa level now).1.state now ∧
      (ControlPolicy.evaluate cfg pa level now).1.lastToggle = some now ∧
      cooldownElapsed cfg pa now = true) ∨
    ((ControlPolicy.evaluate cfg pa level now).1 = pa ∧
      ∀ a t, (ControlPolicy.evaluate cfg pa level now).2 ≠ EvalResult.command a t) := by
  obtain ⟨ps, lt⟩ := pa
  cases ps <;> dsimp only [ControlPolicy.evaluate] <;> split_ifs with h1 h2
  · exact Or.inl ⟨rfl, rfl, h2⟩
  · exact Or.inr ⟨rfl, fun a t h => by cases h⟩
  · exact Or.inr ⟨rfl, fun a t h => by cases h⟩
  · exact Or.inl ⟨rfl, rfl, h2⟩
  · exact Or.inr ⟨rfl, fun a t h => by cases h⟩
  · exact Or.inr ⟨rfl, fun a t h => by cases h⟩

theorem runPolicy_chain (cfg : PumpConfig) (readings : List (ℚ × ℤ)) :
    ∀ (pa : PumpAutomation),
      (∀ t0, pa.lastToggle = some t0 →
        List.Chain (cooldownRel cfg.cooldown_seconds) t0
          (commandTimes (runPolicy cfg pa readings).2)) ∧
      List.Chain' (cooldownRel cfg.cooldown_seconds)
        (commandTimes (runPolicy cfg pa readings).2) := by
  induction readings with
  | nil => exact fun pa => ⟨fun t0 _ => List.Chain.nil, trivial⟩
  | cons p rest ih =>
      obtain ⟨level, t⟩ := p
      intro pa
      have hrun : (runPolicy cfg pa ((level, t) :: rest)).2 =
          (ControlPolicy.evaluate cfg pa level t).2 ::
            (runPolicy cfg (ControlPolicy.evaluate cfg pa level t).1 rest).2 := rfl
      rcases evaluate_split cfg pa level t with ⟨hcmd, hlt, hcd⟩ | ⟨hpa, hnc⟩
      · have hct : commandTimes ((runPolicy cfg pa ((level, t) :: rest)).2) =
            t :: commandTimes (runPolicy cfg (ControlPolicy.evaluate cfg pa level t).1 rest).2 := by
          rw [hrun, hcmd]
          simp [commandTimes]
        have htail : List.Chain (cooldownRel cfg.cooldown_seconds) t
            (commandTimes (runPolicy cfg (ControlPolicy.evaluate cfg pa level t).1 rest).2) :=
          (ih (ControlPolicy.evaluate cfg pa level t).1).1 t hlt
        constructor
        · intro t0 h0
          rw [hct]
          refine List.Chain.cons ?_ htail
          have hcd' : cooldownElapsed cfg pa t = true := hcd
          unfold cooldownElapsed at hcd'
          rw [h0] at hcd'
          simp only [decide_eq_true_eq] at hcd'
          show t0 + cfg.cooldown_seconds ≤ t
          omega
        · rw [hct]
          exact htail
      · have hct : commandTimes ((runPolicy cfg pa ((level, t) :: rest)).2) =
            commandTimes (runPolicy cfg (ControlPolicy.evaluate cfg pa level t).1 rest).2 := by
          rw [hrun]
          cases hr : (ControlPolicy.evaluate cfg pa level t).2 with
          | command a t' => exact absurd hr (hnc a t')
          | noop => simp [commandTimes]
          | blocked => simp [commandTimes]
        rw [hpa] at hct
        constructor
        · intro t0 h0
          rw [hct]
          exact (ih pa).1 t0 h0
        · rw [hct]
          exact (ih pa).2

/-- C2: for every input sequence the issue times of the emitted commands of
one pump are pairwise at least the cooldown apart, and a needed transition
whose cooldown has not elapsed evaluates to blocked with the automation
state unchanged. -/
theorem cooldown_spacing (cfg : PumpConfig) (pa : PumpAutomation)
    (readings : List (ℚ × ℤ)) (hc : 0 ≤ cfg.cooldown_seconds) :
    (commandTimes (runPolicy cfg pa readings).2).Pairwise
      (fun a b => cfg.cooldown_seconds ≤ b - a) ∧
    ∀ (pa' : PumpAutomation) (level : ℚ) (now : ℤ),
      transitionNeeded cfg pa' level → cooldownElapsed cfg pa' now = false →
      ControlPolicy.evaluate cfg pa' level now = (pa', EvalResult.blocked) := by
  constructor
  · have hchain := (runPolicy_chain cfg readings pa).2
    haveI : IsTrans ℤ (cooldownRel cfg.cooldown_seconds) :=
      ⟨fun a b c' h1 h2 => by
        show a + cfg.cooldown_seconds ≤ c'
        have hb : a + cfg.cooldown_seconds ≤ b := h1
        have hcc : b + cfg.cooldown_seconds ≤ c' := h2
        omega⟩
    have hp := List.chain'_iff_pairwise.mp hchain
    exact hp.imp fun {a b} hab => by
      have : a + cfg.cooldown_seconds ≤ b := hab
      omega
  · intro pa' level now hn hcdf
    obtain ⟨ps, lt⟩ := pa'
    rcases hn with ⟨hs, hl⟩ | ⟨hs, hl⟩
    · have hps : ps = PumpState.Off := hs
      subst hps
      dsimp only [ControlPolicy.evaluate]
      rw [if_pos hl, hcdf]
      simp
    · have hps : ps = PumpState.On := hs
      subst hps
      dsimp only [ControlPolicy.evaluate]
      rw [if_pos hl, hcdf]
      simp

/-- Witness for C2 at a concrete configuration and input sequence. -/
theorem cooldown_spacing_witness :
    (commandTimes (runPolicy ⟨40, 80, 5⟩ pumpInitiallyOff
        [((30 : ℚ), (0 : ℤ)), ((90 : ℚ), (10 : ℤ))]).2).Pairwise
      (fun a b => (⟨40, 80, 5⟩ : PumpConfig).cooldown_seconds ≤ b - a) :=
  (cooldown_spacing ⟨40, 80, 5⟩ pumpInitiallyOff
    [((30 : ℚ), (0 : ℤ)), ((90 : ℚ), (10 : ℤ))] (by decide)).1

/- ### Claim theorems: ControlPolicy hysteresis -/

theorem chain_shift {c : ℤ} (hc : 0 ≤ c) {t0 t1 : ℤ} (h : t0 + c ≤ t1) :
    ∀ {l : List ℤ}, List.Chain (cooldownRel c) t1 l → List.Chain (cooldownRel c) t0 l := by
  intro l hl
  cases l with
  | nil => exact List.Chain.nil
  | cons b l' =>
      rw [List.chain_cons] at hl ⊢
      refine ⟨?_, hl.2⟩
      have hb : t1 + c ≤ b := hl.1
      show t0 + c ≤ b
      omega

theorem off_stable (cfg : PumpConfig) :
    ∀ (readings : List (ℚ × ℤ)) (lt : Option ℤ),
      (∀ p ∈ readings, ¬ p.1 < cfg.low_threshold) →
      commandsOf (runPolicy cfg ⟨PumpState.Off, lt⟩ readings).2 = [] := by
  intro readings
  induction readings with
  | nil => intro lt _; rfl
  | cons p rest ih =>
      obtain ⟨level, t⟩ := p
      intro lt h
      have hnl : ¬ level < cfg.low_threshold := h (level, t) (List.mem_cons_self _ _)
      have hrun : (runPolicy cfg ⟨PumpState.Off, lt⟩ ((level, t) :: rest)).2 =
          (ControlPolicy.evaluate cfg ⟨PumpState.Off, lt⟩ level t).2 ::
            (runPolicy cfg (ControlPolicy.evaluate cfg ⟨PumpState.Off, lt⟩ level t).1 rest).2 :=
        rfl
      have heval : ControlPolicy.evaluate cfg ⟨PumpState.Off, lt⟩ level t =
          (⟨PumpState.Off, lt⟩, EvalResult.noop) := by
        dsimp only [ControlPolicy.evaluate]
        rw [if_neg hnl]
      rw [hrun, heval]
      have htail := ih lt (fun q hq => h q (List.mem_cons_of_mem _ hq))
      simpa [commandsOf] using htail

theorem on_phase (c : ℤ) (hc : 0 ≤ c) :
    ∀ (rest : List (ℚ × ℤ)) (t0 : ℤ),
      (rest.map Prod.fst).Chain' (· ≤ ·) →
      List.Chain (cooldownRel c) t0 (rest.map Prod.snd) →
      80 < (rest.getLastD (0, 0)).1 →
      commandsOf (runPolicy (cfg40_80 c) ⟨PumpState.On, some t0⟩ rest).2 = [PumpState.Off] := by
  intro rest
  induction rest with
  | nil =>
      intro t0 _ _ hend
      norm_num [List.getLastD] at hend
  | cons p rs ih =>
      obtain ⟨l, t⟩ := p
      intro t0 hmono hchain hend
      simp only [List.map_cons] at hchain
      have h1 : cooldownRel c t0 t := (List.chain_cons.mp hchain).1
      have h2 : List.Chain (cooldownRel c) t (rs.map Prod.snd) := (List.chain_cons.mp hchain).2
      have hcd : cooldownElapsed (cfg40_80 c) ⟨PumpState.On, some t0⟩ t = true := by
        unfold cooldownElapsed
        simp only [decide_eq_true_eq]
        show (cfg40_80 c).cooldown_seconds ≤ t - t0
        have hb : t0 + c ≤ t := h1
        show c ≤ t - t0
        omega
      have hrun : (runPolicy (cfg40_80 c) ⟨PumpState.On, some t0⟩ ((l, t) :: rs)).2 =
          (ControlPolicy.evaluate (cfg40_80 c) ⟨PumpState.On, some t0⟩ l t).2 ::
            (runPolicy (cfg40_80 c)
              (ControlPolicy.evaluate (cfg40_80 c) ⟨PumpState.On, some t0⟩ l t).1 rs).2 := rfl
      by_cases hl80 : (80 : ℚ) < l
      · have heval : ControlPolicy.evaluate (cfg40_80 c) ⟨PumpState.On, some t0⟩ l t =
            (⟨PumpState.Off, some t⟩, EvalResult.command PumpState.Off t) := by
          dsimp only [ControlPolicy.evaluate]
          rw [if_pos (show (cfg40_80 c).high_threshold < l from hl80), if_pos hcd]
        rw [hrun, heval]
        have hrest : commandsOf (runPolicy (cfg40_80 c) ⟨PumpState.Off, some t⟩ rs).2 = [] := by
          apply off_stable
          intro q hq
          have hmem : q.1 ∈ rs.map Prod.fst := List.mem_map_of_mem Prod.fst hq
          haveI : IsTrans ℚ (· ≤ ·) := inferInstance
          have hpw : ((l :: rs.map Prod.fst)).Pairwise (· ≤ ·) := by
            have := hmono
            simp only [List.map_cons] at this
            exact List.chain'_iff_pairwise.mp this
          have hle : l ≤ q.1 := (List.rel_of_pairwise_cons hpw) hmem
          show ¬ q.1 < (cfg40_80 c).low_threshold
          show ¬ q.1 < 40
          intro hcon
          have : (80 : ℚ) < 40 := by linarith
          norm_num at this
        simpa [commandsOf] using hrest
      · have heval : ControlPolicy.evaluate (cfg40_80 c) ⟨PumpState.On, some t0⟩ l t =
            (⟨PumpState.On, some t0⟩, EvalResult.noop) := by
          dsimp only [ControlPolicy.evaluate]
          rw [if_neg (show ¬ (cfg40_80 c).high_threshold < l from hl80)]
        rw [hrun, heval]
        have hmono' : (rs.map Prod.fst).Chain' (· ≤ ·) := by
          have := hmono
          simp only [List.map_cons] at this
          exact this.tail
        have hchain' : List.Chain (cooldownRel c) t0 (rs.map Prod.snd) :=
          chain_shift hc h1 h2
        have hend' : 80 < (rs.getLastD (0, 0)).1 := by
          cases rs with
          | nil =>
              rw [List.getLastD_cons, List.getLastD_nil] at hend
              exact absurd hend hl80
          | cons q rs' =>
              rw [List.getLastD_cons] at hend
              rw [show (q :: rs').getLastD (l, t) = (q :: rs').getLastD (0, 0) from by
                rw [List.getLastD_cons, List.getLastD_cons]] at hend
              exact hend
        have htail := ih t0 hmono' hchain' hend'
        simpa [commandsOf] using htail

theorem runPolicy_guard (cfg : PumpConfig) :
    ∀ (readings : List (ℚ × ℤ)) (pa : PumpAutomation) (lv : ℚ) (t tc : ℤ) (a : PumpState),
      ((lv, t), EvalResult.command a tc) ∈ readings.zip (runPolicy cfg pa readings).2 →
      tc = t ∧ ((a = PumpState.On ∧ lv < cfg.low_threshold) ∨
        (a = PumpState.Off ∧ cfg.high_threshold < lv)) := by
  intro readings
  induction readings with
  | nil => intro pa lv t tc a h; simp [runPolicy] at h
  | cons p rs ih =>
      obtain ⟨l, tt⟩ := p
      intro pa lv t tc a h
      have hrun : (runPolicy cfg pa ((l, tt) :: rs)).2 =
          (ControlPolicy.evaluate cfg pa l tt).2 ::
            (runPolicy cfg (ControlPolicy.evaluate cfg pa l tt).1 rs).2 := rfl
      rw [hrun, List.zip_cons_cons] at h
      rcases List.mem_cons.mp h with heq | hmem
      · injection heq with h1 h2
        injection h1 with hlv htt
        subst hlv
        subst htt
        obtain ⟨ps, plt⟩ := pa
        cases ps with
        | On =>
            dsimp only [ControlPolicy.evaluate] at h2
            by_cases hcond : cfg.high_threshold < lv
            · rw [if_pos hcond] at h2
              by_cases hcd : cooldownElapsed cfg ⟨PumpState.On, plt⟩ t = true
              · rw [if_pos hcd] at h2
                simp only [EvalResult.command.injEq] at h2
                obtain ⟨ha, htc⟩ := h2
                subst ha
                subst htc
                exact ⟨rfl, Or.inr ⟨rfl, hcond⟩⟩
              · rw [if_neg hcd] at h2
                cases h2
            · rw [if_neg hcond] at h2
              cases h2
        | Off =>
            dsimp only [ControlPolicy.evaluate] at h2
            by_cases hcond : lv < cfg.low_threshold
            · rw [if_pos hcond] at h2
              by_cases hcd : cooldownElapsed cfg ⟨PumpState.Off, plt⟩ t = true
              · rw [if_pos hcd] at h2
                simp only [EvalResult.command.injEq] at h2
                obtain ⟨ha, htc⟩ := h2
                subst ha
                subst htc
                exact ⟨rfl, Or.inl ⟨rfl, hcond⟩⟩
              · rw [if_neg hcd] at h2
                cases h2
            · rw [if_neg hcond] at h2
              cases h2
      · exact ih (ControlPolicy.evaluate cfg pa l tt).1 lv t tc a hmem

/-- C1: for thresholds 40 and 80, starting OFF, any monotone non-decreasing
level sequence that starts below 40 and ends above 80, evaluated at instants
spaced at least the cooldown apart, produces exactly one ON command and then
exactly one OFF command; moreover every ON command fires at a level below 40
and every OFF command at a level above 80, so no transition ever fires while
the level sits inside the hysteresis band. -/
theorem hysteresis_single_toggle (c : ℤ) (l0 : ℚ) (t0 : ℤ) (rest : List (ℚ × ℤ))
    (hc : 0 ≤ c)
    (hmono : ((((l0, t0) : ℚ × ℤ) :: rest).map Prod.fst).Chain' (· ≤ ·))
    (htime : List.Chain' (cooldownRel c) (((l0, t0) :: rest).map Prod.snd))
    (hstart : l0 < 40)
    (hend : 80 < (((l0, t0) :: rest).getLastD (0, 0)).1) :
    commandsOf (runPolicy (cfg40_80 c) pumpInitiallyOff ((l0, t0) :: rest)).2 =
      [PumpState.On, PumpState.Off] ∧
    ∀ (lv : ℚ) (t tc : ℤ) (a : PumpState),
      ((lv, t), EvalResult.command a tc) ∈
        ((l0, t0) :: rest).zip
          (runPolicy (cfg40_80 c) pumpInitiallyOff ((l0, t0) :: rest)).2 →
      (a = PumpState.On → lv < 40) ∧ (a = PumpState.Off → 80 < lv) := by
  constructor
  · have heval : ControlPolicy.evaluate (cfg40_80 c) pumpInitiallyOff l0 t0 =
        (⟨PumpState.On, some t0⟩, EvalResult.command PumpState.On t0) := by
      dsimp only [ControlPolicy.evaluate, pumpInitiallyOff]
      rw [if_pos (show l0 < (cfg40_80 c).low_threshold from hstart)]
      rfl
    have hrun : (runPolicy (cfg40_80 c) pumpInitiallyOff ((l0, t0) :: rest)).2 =
        (ControlPolicy.evaluate (cfg40_80 c) pumpInitiallyOff l0 t0).2 ::
          (runPolicy (cfg40_80 c)
            (ControlPolicy.evaluate (cfg40_80 c) pumpInitiallyOff l0 t0).1 rest).2 := rfl
    rw [hrun, heval]
    have hmono' : (rest.map Prod.fst).Chain' (· ≤ ·) := by
      have := hmono
      simp only [List.map_cons] at this
      exact this.tail
    have hchain : List.Chain (cooldownRel c) t0 (rest.map Prod.snd) := by
      have := htime
      simp only [List.map_cons] at this
      exact this
    have hend' : 80 < (rest.getLastD (0, 0)).1 := by
      cases rest with
      | nil =>
          rw [List.getLastD_cons, List.getLastD_nil] at hend
          exact absurd (by linarith : (80 : ℚ) < 40) (by norm_num)
      | cons q rs' =>
          rw [List.getLastD_cons] at hend
          rw [show (q :: rs').getLastD (l0, t0) = (q :: rs').getLastD (0, 0) from by
            rw [List.getLastD_cons, List.getLastD_cons]] at hend
          exact hend
    have htail := on_phase c hc rest t0 hmono' hchain hend'
    simpa [commandsOf] using htail
  · intro lv t tc a hmem
    have hg := runPolicy_guard (cfg40_80 c) ((l0, t0) :: rest) pumpInitiallyOff lv t tc a hmem
    rcases hg.2 with ⟨haOn, hlow⟩ | ⟨haOff, hhigh⟩
    · refine ⟨fun _ => ?_, fun hoff => ?_⟩
      · exact hlow
      · rw [haOn] at hoff
        cases hoff
    · refine ⟨fun hon => ?_, fun _ => ?_⟩
      · rw [haOff] at hon
        cases hon
      · exact hhigh

/-- Witness for C1 at cooldown 0 and the level sequence 30, 50, 90. -/
theorem hysteresis_single_toggle_witness :
    commandsOf (runPolicy (cfg40_80 0) pumpInitiallyOff
        [((30 : ℚ), (0 : ℤ)), ((50 : ℚ), (1 : ℤ)), ((90 : ℚ), (2 : ℤ))]).2 =
      [PumpState.On, PumpState.Off] :=
  (hysteresis_single_toggle 0 30 0 [((50 : ℚ), (1 : ℤ)), ((90 : ℚ), (2 : ℤ))]
    (by norm_num)
    (by norm_num [List.chain'_cons, List.chain'_singleton])
    (by norm_num [List.chain'_cons, List.chain'_singleton, cooldownRel])
    (by norm_num)
    (by norm_num [List.getLastD_cons, List.getLastD_nil])).1
